import Mathlib

/-!
Shallow embedding of the hifi entity record and its synchronization codec
(libraries/entities/src/EntityItem.h and the entity spatial index /
incremental synchronization protocol described in the design document).

Machine floats (glm::vec3, glm::quat, float) are modelled with exact
rationals; quint64 microsecond timestamps with Nat; uint32_t bitmasks with
Nat under explicit masking.  Inline member functions of EntityItem.h are
translated directly; member functions whose bodies live in EntityItem.cpp
(absent from the source tree) are modelled from the specification and say
so in their doc comments.
-/

/-- 3-component vector, modelling glm::vec3 with exact rationals in place of
machine floats. -/
structure Vec3 where
  x : ℚ
  y : ℚ
  z : ℚ
deriving DecidableEq

/-- Quaternion, modelling glm::quat with exact rationals. -/
structure Quat where
  w : ℚ
  x : ℚ
  y : ℚ
  z : ℚ
deriving DecidableEq

/-- Modelled from the spec: the fixed world-scale constant TREE_SCALE against
which domain coordinates in [0,1] are normalized (the constant itself is
defined outside the available sources). -/
def TREE_SCALE : ℚ := 16384

/-- Microseconds per second, used by lifetime/age conversions. -/
def USECS_PER_SECOND : ℚ := 1000000

/-- Modelled from the spec: the sentinel lifetime value marking an entity as
immortal (ENTITY_ITEM_IMMORTAL_LIFETIME, defined in
EntityItemPropertiesDefaults.h which is outside the available sources). -/
def ENTITY_ITEM_IMMORTAL_LIFETIME : ℚ := -1

/-- Componentwise scalar clamp, modelling glm::clamp on one component. -/
def qclamp (q lo hi : ℚ) : ℚ := if q < lo then lo else if hi < q then hi else q

/-- Scalar absolute value, modelling glm::abs on one component. -/
def qabs (q : ℚ) : ℚ := if q < 0 then -q else q

/-- Componentwise clamp, modelling glm::clamp(v, lo, hi) on a vec3. -/
def vecClamp (v : Vec3) (lo hi : ℚ) : Vec3 :=
  ⟨qclamp v.x lo hi, qclamp v.y lo hi, qclamp v.z lo hi⟩

/-- Componentwise absolute value, modelling glm::abs on a vec3. -/
def vecAbs (v : Vec3) : Vec3 := ⟨qabs v.x, qabs v.y, qabs v.z⟩

/-- Scaling a vec3 by a scalar, modelling v * s. -/
def vecScale (v : Vec3) (s : ℚ) : Vec3 := ⟨v.x * s, v.y * s, v.z * s⟩

/-- The EntityItem record: the base-class state of EntityItem.h (QUuid ids
abstracted to Nat, floats to rationals, quint64 usec timestamps to Nat). -/
structure EntityItem where
  id : Nat
  creatorTokenID : Nat
  newlyCreated : Bool
  lastSimulated : Nat
  lastUpdated : Nat
  lastEdited : Nat
  lastEditedFromRemote : Nat
  lastEditedFromRemoteInRemoteTime : Nat
  created : Nat
  changedOnServer : Nat
  position : Vec3
  dimensions : Vec3
  rotation : Quat
  glowLevel : ℚ
  localRenderAlpha : ℚ
  density : ℚ
  volumeMultiplier : ℚ
  velocity : Vec3
  gravity : Vec3
  damping : ℚ
  lifetime : ℚ
  script : String
  registrationPoint : Vec3
  angularVelocity : Vec3
  angularDamping : ℚ
  visible : Bool
  ignoreForCollisions : Bool
  collisionsWillMove : Bool
  locked : Bool
  userData : String
  dirtyFlags : Nat
deriving DecidableEq

/-- EntityItem.h: void setLastSimulated(quint64 now) -- assigns _lastSimulated. -/
def setLastSimulated (e : EntityItem) (now : Nat) : EntityItem :=
  { e with lastSimulated := now }

/-- EntityItem.h: setLastEdited assigns _lastEdited and _lastUpdated and takes
the max of the argument with _changedOnServer. -/
def setLastEdited (e : EntityItem) (t : Nat) : EntityItem :=
  { e with lastEdited := t, lastUpdated := t, changedOnServer := max t e.changedOnServer }

/-- EntityItem.h: virtual void update(const quint64 now) -- assigns _lastUpdated. -/
def update (e : EntityItem) (now : Nat) : EntityItem :=
  { e with lastUpdated := now }

/-- EntityItem.h: markAsChangedOnServer assigns _changedOnServer from the
current clock, passed here explicitly. -/
def markAsChangedOnServer (e : EntityItem) (now : Nat) : EntityItem :=
  { e with changedOnServer := now }

/-- EntityItem.h: setPositionInMeters assigns _position. -/
def setPositionInMeters (e : EntityItem) (v : Vec3) : EntityItem :=
  { e with position := v }

/-- EntityItem.h: setPositionInDomainUnits clamps each coordinate to [0,1]
and scales by TREE_SCALE before storing. -/
def setPositionInDomainUnits (e : EntityItem) (v : Vec3) : EntityItem :=
  setPositionInMeters e (vecScale (vecClamp v 0 1) TREE_SCALE)

/-- EntityItem.h: setDimensionsInDomainUnits stores glm::abs(value) * TREE_SCALE
(absolute value, with no clamp to [0,1]). -/
def setDimensionsInDomainUnits (e : EntityItem) (v : Vec3) : EntityItem :=
  { e with dimensions := vecScale (vecAbs v) TREE_SCALE }

/-- EntityItem.h: setDimensionsInMeters stores glm::abs(value). -/
def setDimensionsInMeters (e : EntityItem) (v : Vec3) : EntityItem :=
  { e with dimensions := vecAbs v }

/-- EntityItem.h enum EntityDirtyFlags. -/
def DIRTY_POSITION : Nat := 1
def DIRTY_VELOCITY : Nat := 2
def DIRTY_MASS : Nat := 4
def DIRTY_COLLISION_GROUP : Nat := 8
def DIRTY_MOTION_TYPE : Nat := 16
def DIRTY_SHAPE : Nat := 32
def DIRTY_LIFETIME : Nat := 64
def DIRTY_UPDATEABLE : Nat := 128

/-- EntityItem.h: clearDirtyFlags performs _dirtyFlags &= ~mask on a uint32. -/
def clearDirtyFlags (e : EntityItem) (mask : Nat) : EntityItem :=
  { e with dirtyFlags := e.dirtyFlags &&& (4294967295 ^^^ mask) }

/-- EntityItem.h: clearDirtyFlags with its default mask argument 0xffff. -/
def clearDirtyFlagsDefault (e : EntityItem) : EntityItem :=
  clearDirtyFlags e 65535

/-- EntityItem.h: getDirtyFlags accessor. -/
def getDirtyFlags (e : EntityItem) : Nat := e.dirtyFlags

/-- EntityItem.h: isImmortal compares _lifetime against the immortal sentinel. -/
def isImmortal (e : EntityItem) : Bool :=
  decide (e.lifetime = ENTITY_ITEM_IMMORTAL_LIFETIME)

/-- EntityItem.h: isMortal is the negated sentinel comparison. -/
def isMortal (e : EntityItem) : Bool :=
  decide (e.lifetime ≠ ENTITY_ITEM_IMMORTAL_LIFETIME)

/-- Modelled from the spec: getExpiry computes created + lifetime (the body in
EntityItem.cpp is outside the available sources); the creation timestamp is in
microseconds and the lifetime in seconds. -/
def getExpiry (e : EntityItem) : ℚ :=
  (e.created : ℚ) + e.lifetime * USECS_PER_SECOND

/-- Modelled from the spec: lifetimeHasExpired is true exactly for a mortal
entity whose expiry time has been reached; computed from created + lifetime,
never cached (body in EntityItem.cpp, outside the available sources). -/
def lifetimeHasExpired (e : EntityItem) (now : ℚ) : Bool :=
  isMortal e && decide (getExpiry e ≤ now)

/-- A fresh default entity record, used as the decode target for round trips
and as a base for concrete test states. -/
def freshEntity : EntityItem :=
  { id := 0, creatorTokenID := 0, newlyCreated := true, lastSimulated := 0,
    lastUpdated := 0, lastEdited := 0, lastEditedFromRemote := 0,
    lastEditedFromRemoteInRemoteTime := 0, created := 0, changedOnServer := 0,
    position := ⟨0, 0, 0⟩, dimensions := ⟨0, 0, 0⟩, rotation := ⟨1, 0, 0, 0⟩,
    glowLevel := 0, localRenderAlpha := 1, density := 1000, volumeMultiplier := 1,
    velocity := ⟨0, 0, 0⟩, gravity := ⟨0, 0, 0⟩, damping := 0,
    lifetime := ENTITY_ITEM_IMMORTAL_LIFETIME, script := "",
    registrationPoint := ⟨0, 0, 0⟩, angularVelocity := ⟨0, 0, 0⟩,
    angularDamping := 0, visible := true, ignoreForCollisions := false,
    collisionsWillMove := false, locked := false, userData := "", dirtyFlags := 0 }

/-! Claims decided by inline code of EntityItem.h: timestamp setters,
domain-unit setters, setLastEdited. -/

/-- Claim C6 counterexample: the claim says no setter leaves a timestamp field
smaller than its previous value, but setLastSimulated blindly overwrites
_lastSimulated, so calling it with 5 on an entity whose last-simulated time is
10 decreases the field. -/
theorem c6_counterexample :
    (setLastSimulated { freshEntity with lastSimulated := 10 } 5).lastSimulated
      < ({ freshEntity with lastSimulated := 10 } : EntityItem).lastSimulated := by
  decide

/-- Claim C6 (amended): setLastSimulated, update and setLastEdited overwrite
their timestamp fields with the supplied clock value (so those fields are
non-decreasing only when callers supply non-decreasing clock readings), while
the changed-on-server timestamp is unconditionally non-decreasing under
setLastEdited because it takes the max with its previous value. -/
theorem c6_amended (e : EntityItem) (t : Nat) :
    (setLastSimulated e t).lastSimulated = t ∧
    (update e t).lastUpdated = t ∧
    (setLastEdited e t).lastEdited = t ∧
    (setLastEdited e t).lastUpdated = t ∧
    e.changedOnServer ≤ (setLastEdited e t).changedOnServer := by
  refine ⟨rfl, rfl, rfl, rfl, ?_⟩
  exact le_max_right t e.changedOnServer

/-- Claim C7 counterexample: the claim says dimensions set in domain units are
clamped componentwise to [0,1] before scaling by TREE_SCALE, but the code
stores glm::abs(value) * TREE_SCALE: with input x-coordinate 2 the stored
x-dimension is 2 * TREE_SCALE, strictly above the clamped maximum TREE_SCALE. -/
theorem c7_counterexample :
    (setDimensionsInDomainUnits freshEntity ⟨2, 0, 0⟩).dimensions.x = 2 * TREE_SCALE ∧
    ¬ (setDimensionsInDomainUnits freshEntity ⟨2, 0, 0⟩).dimensions.x ≤ TREE_SCALE := by
  constructor
  · show qabs 2 * TREE_SCALE = 2 * TREE_SCALE
    norm_num [qabs]
  · show ¬ qabs 2 * TREE_SCALE ≤ TREE_SCALE
    norm_num [qabs, TREE_SCALE]

/-- Claim C7 (amended): setting position in domain units clamps each coordinate
to [0,1] before scaling by TREE_SCALE (so each stored coordinate lies in
[0, TREE_SCALE]), while setting dimensions in domain units takes the absolute
value of each coordinate before scaling (so negative dimensions are recovered
by abs and the stored dimensions are non-negative, but magnitudes above 1 are
not clamped); both accept every input silently. -/
theorem c7_amended (e : EntityItem) (v : Vec3) :
    (setPositionInDomainUnits e v).position = vecScale (vecClamp v 0 1) TREE_SCALE ∧
    (0 ≤ (setPositionInDomainUnits e v).position.x ∧
      (setPositionInDomainUnits e v).position.x ≤ TREE_SCALE) ∧
    (0 ≤ (setPositionInDomainUnits e v).position.y ∧
      (setPositionInDomainUnits e v).position.y ≤ TREE_SCALE) ∧
    (0 ≤ (setPositionInDomainUnits e v).position.z ∧
      (setPositionInDomainUnits e v).position.z ≤ TREE_SCALE) ∧
    (setDimensionsInDomainUnits e v).dimensions = vecScale (vecAbs v) TREE_SCALE ∧
    0 ≤ (setDimensionsInDomainUnits e v).dimensions.x ∧
    0 ≤ (setDimensionsInDomainUnits e v).dimensions.y ∧
    0 ≤ (setDimensionsInDomainUnits e v).dimensions.z := by
  have hclamp : ∀ q : ℚ, 0 ≤ qclamp q 0 1 * TREE_SCALE ∧ qclamp q 0 1 * TREE_SCALE ≤ TREE_SCALE := by
    intro q
    unfold qclamp TREE_SCALE
    split
    · norm_num
    · split
      · norm_num
      · constructor
        · nlinarith [show ¬ q < 0 by assumption]
        · nlinarith [show ¬ (1:ℚ) < q by assumption]
  have habs : ∀ q : ℚ, 0 ≤ qabs q * TREE_SCALE := by
    intro q
    unfold qabs TREE_SCALE
    split
    · nlinarith [show q < 0 by assumption]
    · nlinarith [show ¬ q < 0 by assumption]
  exact ⟨rfl, ⟨(hclamp v.x).1, (hclamp v.x).2⟩, ⟨(hclamp v.y).1, (hclamp v.y).2⟩,
    ⟨(hclamp v.z).1, (hclamp v.z).2⟩, rfl, habs v.x, habs v.y, habs v.z⟩

/-- Claim C10: setLastEdited(t) sets both the last-edited and last-updated
fields to t, sets the changed-on-server field to the max of t and its previous
value (so it never decreases), and leaves every other field unchanged. -/
theorem c10_setLastEdited (e : EntityItem) (t : Nat) :
    setLastEdited e t =
      { e with lastEdited := t, lastUpdated := t,
               changedOnServer := max t e.changedOnServer } ∧
    e.changedOnServer ≤ (setLastEdited e t).changedOnServer := by
  exact ⟨rfl, le_max_right t e.changedOnServer⟩

/-! Dirty-flag-tracking update operations and lifetime expiry. -/

/-- Modelled from the spec: updatePositionInMeters applies the value and sets
DIRTY_POSITION only when the value actually changes (body in EntityItem.cpp,
outside the available sources; the spec requires that setting a field to its
current value never sets a dirty bit). -/
def updatePositionInMeters (e : EntityItem) (v : Vec3) : EntityItem :=
  if v = e.position then e
  else { e with position := v, dirtyFlags := e.dirtyFlags ||| DIRTY_POSITION }

/-- Modelled from the spec: updateVelocityInMeters applies the value and sets
DIRTY_VELOCITY only when the value actually changes (body in EntityItem.cpp,
outside the available sources). -/
def updateVelocityInMeters (e : EntityItem) (v : Vec3) : EntityItem :=
  if v = e.velocity then e
  else { e with velocity := v, dirtyFlags := e.dirtyFlags ||| DIRTY_VELOCITY }

/-- Modelled from the spec: updateLifetime applies the value and sets
DIRTY_LIFETIME only when the value actually changes (body in EntityItem.cpp,
outside the available sources). -/
def updateLifetime (e : EntityItem) (v : ℚ) : EntityItem :=
  if v = e.lifetime then e
  else { e with lifetime := v, dirtyFlags := e.dirtyFlags ||| DIRTY_LIFETIME }

/-- Claim C5: for a finite (non-immortal-sentinel) lifetime, lifetimeHasExpired
is true exactly at query times at or beyond created + lifetime (converted to
microseconds) and false strictly before, and an entity whose lifetime equals
the immortal sentinel never expires; expiry is recomputed from created +
lifetime on every query. -/
theorem c5_lifetime (e : EntityItem) (now : ℚ) :
    (e.lifetime ≠ ENTITY_ITEM_IMMORTAL_LIFETIME →
      (lifetimeHasExpired e now = true ↔
        (e.created : ℚ) + e.lifetime * USECS_PER_SECOND ≤ now)) ∧
    (e.lifetime = ENTITY_ITEM_IMMORTAL_LIFETIME →
      lifetimeHasExpired e now = false) := by
  constructor
  · intro h
    simp [lifetimeHasExpired, isMortal, getExpiry, h]
  · intro h
    simp [lifetimeHasExpired, isMortal, h]

/-- Witness for c5_lifetime at a concrete mortal entity: created at 0 with a
1-second lifetime, it reports expired at query time 2000000 usecs. -/
theorem c5_lifetime_witness :
    ({ freshEntity with lifetime := 1 } : EntityItem).lifetime ≠ ENTITY_ITEM_IMMORTAL_LIFETIME ∧
    lifetimeHasExpired { freshEntity with lifetime := 1 } 2000000 = true := by
  have h := c5_lifetime { freshEntity with lifetime := 1 } 2000000
  have hne : ({ freshEntity with lifetime := 1 } : EntityItem).lifetime
      ≠ ENTITY_ITEM_IMMORTAL_LIFETIME := by decide
  exact ⟨hne, (h.1 hne).2 (by norm_num [freshEntity, USECS_PER_SECOND])⟩

/-- Claim C9: on any entity state whose dirty flags are built from the
EntityDirtyFlags bits (all below 2^16), clearing with the default mask then
reading the flags returns zero; and the dirty-flag-tracking updates
(updatePositionInMeters, updateVelocityInMeters, updateLifetime) applied with
a value equal to the field's current value leave the whole entity, and in
particular its dirty flags, unchanged. -/
theorem c9_dirty (e : EntityItem) (h : e.dirtyFlags < 65536) :
    getDirtyFlags (clearDirtyFlagsDefault e) = 0 ∧
    updatePositionInMeters e e.position = e ∧
    updateVelocityInMeters e e.velocity = e ∧
    updateLifetime e e.lifetime = e := by
  refine ⟨?_, if_pos rfl, if_pos rfl, if_pos rfl⟩
  show e.dirtyFlags &&& (4294967295 ^^^ 65535) = 0
  have hx : (4294967295 ^^^ 65535 : Nat) = 4294901760 := by decide
  rw [hx]
  apply Nat.eq_of_testBit_eq
  intro i
  simp only [Nat.testBit_and, Nat.zero_testBit, Bool.and_eq_false_iff]
  by_cases hi : i < 16
  · right
    interval_cases i <;> decide
  · left
    have : (65536 : Nat) ≤ 2 ^ i := by
      calc (65536 : Nat) = 2 ^ 16 := by decide
      _ ≤ 2 ^ i := Nat.pow_le_pow_right (by decide) (by omega)
    exact Nat.testBit_lt_two_pow (by omega)

/-- Witness for c9_dirty at a concrete entity with several dirty bits set. -/
theorem c9_dirty_witness :
    ({ freshEntity with dirtyFlags := 67 } : EntityItem).dirtyFlags < 65536 ∧
    getDirtyFlags (clearDirtyFlagsDefault { freshEntity with dirtyFlags := 67 }) = 0 := by
  have h := c9_dirty { freshEntity with dirtyFlags := 67 } (by decide)
  exact ⟨by decide, h.1⟩

/-! The entity property set: EntityItemProperties carries an optional value
per base property; getProperties / setProperties translate between it and
the entity record. -/

/-- The base property set of an entity (EntityItemProperties), with one
optional slot per property: a field is absent (none) when the property set
does not carry it. -/
structure EntityItemProperties where
  position : Option Vec3
  dimensions : Option Vec3
  rotation : Option Quat
  velocity : Option Vec3
  gravity : Option Vec3
  damping : Option ℚ
  lifetime : Option ℚ
  script : Option String
  registrationPoint : Option Vec3
  angularVelocity : Option Vec3
  angularDamping : Option ℚ
  visible : Option Bool
  ignoreForCollisions : Option Bool
  collisionsWillMove : Option Bool
  locked : Option Bool
  userData : Option String
deriving DecidableEq

/-- Modelled from the spec: getProperties returns the full property set of the
entity, every slot present (body in EntityItem.cpp, outside the available
sources). -/
def getProperties (e : EntityItem) : EntityItemProperties :=
  { position := some e.position, dimensions := some e.dimensions,
    rotation := some e.rotation, velocity := some e.velocity,
    gravity := some e.gravity, damping := some e.damping,
    lifetime := some e.lifetime, script := some e.script,
    registrationPoint := some e.registrationPoint,
    angularVelocity := some e.angularVelocity,
    angularDamping := some e.angularDamping, visible := some e.visible,
    ignoreForCollisions := some e.ignoreForCollisions,
    collisionsWillMove := some e.collisionsWillMove, locked := some e.locked,
    userData := some e.userData }

/-- One field of a property application: keeps the current value when the
property set does not carry the field, otherwise takes the carried value and
reports whether it differs from the current value. -/
def applyField {α : Type} [DecidableEq α] (cur : α) (incoming : Option α) : α × Bool :=
  match incoming with
  | none => (cur, false)
  | some v => (v, decide (v ≠ cur))

/-- Modelled from the spec: setProperties applies exactly the fields present in
the property set, comparing each carried value against the current one, and
returns whether at least one field actually changed (body in EntityItem.cpp,
outside the available sources). -/
def setProperties (e : EntityItem) (p : EntityItemProperties) : EntityItem × Bool :=
  let f1 := applyField e.position p.position
  let f2 := applyField e.dimensions p.dimensions
  let f3 := applyField e.rotation p.rotation
  let f4 := applyField e.velocity p.velocity
  let f5 := applyField e.gravity p.gravity
  let f6 := applyField e.damping p.damping
  let f7 := applyField e.lifetime p.lifetime
  let f8 := applyField e.script p.script
  let f9 := applyField e.registrationPoint p.registrationPoint
  let f10 := applyField e.angularVelocity p.angularVelocity
  let f11 := applyField e.angularDamping p.angularDamping
  let f12 := applyField e.visible p.visible
  let f13 := applyField e.ignoreForCollisions p.ignoreForCollisions
  let f14 := applyField e.collisionsWillMove p.collisionsWillMove
  let f15 := applyField e.locked p.locked
  let f16 := applyField e.userData p.userData
  ({ e with position := f1.1, dimensions := f2.1, rotation := f3.1,
            velocity := f4.1, gravity := f5.1, damping := f6.1,
            lifetime := f7.1, script := f8.1, registrationPoint := f9.1,
            angularVelocity := f10.1, angularDamping := f11.1,
            visible := f12.1, ignoreForCollisions := f13.1,
            collisionsWillMove := f14.1, locked := f15.1, userData := f16.1 },
   f1.2 || f2.2 || f3.2 || f4.2 || f5.2 || f6.2 || f7.2 || f8.2 || f9.2 ||
   f10.2 || f11.2 || f12.2 || f13.2 || f14.2 || f15.2 || f16.2)

theorem applyField_fst {α : Type} [DecidableEq α] (cur : α) (inc : Option α) :
    (applyField cur inc).1 = inc.getD cur := by
  cases inc <;> rfl

theorem applyField_snd_false {α : Type} [DecidableEq α] (cur : α) (inc : Option α) :
    (applyField cur inc).2 = false ↔ (applyField cur inc).1 = cur := by
  cases inc with
  | none => simp [applyField]
  | some v => simp [applyField]

/-- Claim C8: setProperties applies exactly the fields present in the property
set (each entity field becomes the carried value when present and keeps its
current value when absent) and returns true exactly when at least one field
value actually changed under per-field value-equality comparison. -/
theorem c8_setProperties (e : EntityItem) (p : EntityItemProperties) :
    ((setProperties e p).1.position = p.position.getD e.position ∧
     (setProperties e p).1.dimensions = p.dimensions.getD e.dimensions ∧
     (setProperties e p).1.rotation = p.rotation.getD e.rotation ∧
     (setProperties e p).1.velocity = p.velocity.getD e.velocity ∧
     (setProperties e p).1.gravity = p.gravity.getD e.gravity ∧
     (setProperties e p).1.damping = p.damping.getD e.damping ∧
     (setProperties e p).1.lifetime = p.lifetime.getD e.lifetime ∧
     (setProperties e p).1.script = p.script.getD e.script ∧
     (setProperties e p).1.registrationPoint = p.registrationPoint.getD e.registrationPoint ∧
     (setProperties e p).1.angularVelocity = p.angularVelocity.getD e.angularVelocity ∧
     (setProperties e p).1.angularDamping = p.angularDamping.getD e.angularDamping ∧
     (setProperties e p).1.visible = p.visible.getD e.visible ∧
     (setProperties e p).1.ignoreForCollisions = p.ignoreForCollisions.getD e.ignoreForCollisions ∧
     (setProperties e p).1.collisionsWillMove = p.collisionsWillMove.getD e.collisionsWillMove ∧
     (setProperties e p).1.locked = p.locked.getD e.locked ∧
     (setProperties e p).1.userData = p.userData.getD e.userData) ∧
    ((setProperties e p).2 = true ↔ getProperties (setProperties e p).1 ≠ getProperties e) := by
  have key : (setProperties e p).2 = false ↔
      getProperties (setProperties e p).1 = getProperties e := by
    simp only [setProperties, getProperties, EntityItemProperties.mk.injEq,
      Option.some.injEq, Bool.or_eq_false_iff, applyField_snd_false]
    tauto
  refine ⟨⟨applyField_fst _ _, applyField_fst _ _, applyField_fst _ _, applyField_fst _ _,
    applyField_fst _ _, applyField_fst _ _, applyField_fst _ _, applyField_fst _ _,
    applyField_fst _ _, applyField_fst _ _, applyField_fst _ _, applyField_fst _ _,
    applyField_fst _ _, applyField_fst _ _, applyField_fst _ _, applyField_fst _ _⟩, ?_⟩
  constructor
  · intro ht hcontra
    rw [key.2 hcontra] at ht
    cases ht
  · intro hne
    cases hb : (setProperties e p).2 with
    | false => exact absurd (key.1 hb) hne
    | true => rfl

/-! Wire primitives.  The codec bodies live in EntityItem.cpp /
OctreePacketData.cpp, outside the available sources, so the byte-level value
encodings are modelled from the spec: each value occupies its declared number
of wire bytes (4 per scalar, 12 per vec3, 16 per quaternion, 1 per bool,
1 + length per string), with the scalar payload carried in the leading byte
as an exact-rational abstraction of the little-endian float bytes. -/

/-- Injective packing of a rational into one abstract wire byte. -/
def natOfRat (q : ℚ) : Nat :=
  Nat.pair (Nat.pair q.num.natAbs (if q.num < 0 then 1 else 0)) q.den

/-- Inverse unpacking of a rational from one abstract wire byte. -/
def ratOfNat (n : Nat) : ℚ :=
  let p := n.unpair
  let s := p.1.unpair
  let num : Int := if s.2 = 1 then -(s.1 : Int) else (s.1 : Int)
  (num : ℚ) / (p.2 : ℚ)

theorem ratOfNat_natOfRat (q : ℚ) : ratOfNat (natOfRat q) = q := by
  unfold ratOfNat natOfRat
  simp only [Nat.unpair_pair]
  by_cases h : q.num < 0
  · have habs : ((q.num.natAbs : Int)) = -q.num := by omega
    simp only [h, if_pos rfl, habs]
    push_cast
    simp [Rat.num_div_den]
  · have habs : ((q.num.natAbs : Int)) = q.num := by omega
    have hif : (if q.num < 0 then 1 else 0) = 0 := by simp [h]
    simp only [hif]
    rw [if_neg (by omega : ¬ (0 : Nat) = 1)]
    have hc : ((q.num.natAbs : Int) : ℚ) = (q.num : ℚ) := by exact_mod_cast congrArg Int.cast habs
    rw [hc]
    exact Rat.num_div_den q

/-- Encoding of one float value: 4 wire bytes. -/
def encFloatB (q : ℚ) : List Nat := [natOfRat q, 0, 0, 0]

/-- Decoding of one float value: consumes 4 wire bytes when available. -/
def decFloatB : List Nat → Option (ℚ × Nat)
  | a :: _ :: _ :: _ :: _ => some (ratOfNat a, 4)
  | _ => none

theorem decFloatB_enc (q : ℚ) (rest : List Nat) :
    decFloatB (encFloatB q ++ rest) = some (q, 4) := by
  simp [encFloatB, decFloatB, ratOfNat_natOfRat]

/-- Encoding of one vec3 value: 12 wire bytes. -/
def encVecB (v : Vec3) : List Nat := encFloatB v.x ++ encFloatB v.y ++ encFloatB v.z

/-- Decoding of one vec3 value: consumes 12 wire bytes when available. -/
def decVecB : List Nat → Option (Vec3 × Nat)
  | x :: _ :: _ :: _ :: y :: _ :: _ :: _ :: z :: _ :: _ :: _ :: _ =>
      some (⟨ratOfNat x, ratOfNat y, ratOfNat z⟩, 12)
  | _ => none

theorem decVecB_enc (v : Vec3) (rest : List Nat) :
    decVecB (encVecB v ++ rest) = some (v, 12) := by
  simp [encVecB, encFloatB, decVecB, ratOfNat_natOfRat]

/-- Encoding of one quaternion value: 16 wire bytes. -/
def encQuatB (v : Quat) : List Nat :=
  encFloatB v.w ++ encFloatB v.x ++ encFloatB v.y ++ encFloatB v.z

/-- Decoding of one quaternion value: consumes 16 wire bytes when available. -/
def decQuatB : List Nat → Option (Quat × Nat)
  | w :: _ :: _ :: _ :: x :: _ :: _ :: _ :: y :: _ :: _ :: _ :: z :: _ :: _ :: _ :: _ =>
      some (⟨ratOfNat w, ratOfNat x, ratOfNat y, ratOfNat z⟩, 16)
  | _ => none

theorem decQuatB_enc (v : Quat) (rest : List Nat) :
    decQuatB (encQuatB v ++ rest) = some (v, 16) := by
  simp [encQuatB, encFloatB, decQuatB, ratOfNat_natOfRat]

/-- Encoding of one bool value: 1 wire byte. -/
def encBoolB (b : Bool) : List Nat := [if b then 1 else 0]

/-- Decoding of one bool value: consumes 1 wire byte when available. -/
def decBoolB : List Nat → Option (Bool × Nat)
  | a :: _ => some (decide (a = 1), 1)
  | _ => none

theorem decBoolB_enc (b : Bool) (rest : List Nat) :
    decBoolB (encBoolB b ++ rest) = some (b, 1) := by
  cases b <;> simp [encBoolB, decBoolB]

/-- Encoding of one string value: a length byte followed by one wire byte per
character. -/
def encStrB (s : String) : List Nat := s.data.length :: s.data.map Char.toNat

/-- Decoding of one string value: reads the length byte, then that many
character bytes when available. -/
def decStrB : List Nat → Option (String × Nat)
  | [] => none
  | n :: rest =>
      if n ≤ rest.length then some (String.mk ((rest.take n).map Char.ofNat), 1 + n)
      else none

theorem decStrB_enc (s : String) (rest : List Nat) :
    decStrB (encStrB s ++ rest) = some (s, 1 + s.data.length) := by
  have h1 : (s.data.map Char.toNat ++ rest).take s.data.length = s.data.map Char.toNat :=
    List.take_left' (by simp)
  have h2 : s.data.length ≤ (s.data.map Char.toNat ++ rest).length := by
    simp
  show decStrB (s.data.length :: (s.data.map Char.toNat ++ rest)) = _
  simp only [decStrB, if_pos h2, h1, List.map_map]
  have h3 : (Char.ofNat ∘ Char.toNat) = id := funext fun c => Char.ofNat_toNat c
  rw [h3, List.map_id]

theorem decFloatB_le (d : List Nat) (v : ℚ) (k : Nat) (h : decFloatB d = some (v, k)) :
    k ≤ d.length := by
  unfold decFloatB at h
  split at h
  · simp_all; omega
  · simp_all

theorem decVecB_le (d : List Nat) (v : Vec3) (k : Nat) (h : decVecB d = some (v, k)) :
    k ≤ d.length := by
  unfold decVecB at h
  split at h
  · simp_all; omega
  · simp_all

theorem decQuatB_le (d : List Nat) (v : Quat) (k : Nat) (h : decQuatB d = some (v, k)) :
    k ≤ d.length := by
  unfold decQuatB at h
  split at h
  · simp_all; omega
  · simp_all

theorem decBoolB_le (d : List Nat) (v : Bool) (k : Nat) (h : decBoolB d = some (v, k)) :
    k ≤ d.length := by
  unfold decBoolB at h
  split at h
  · simp_all
  · simp_all

theorem decStrB_le (d : List Nat) (v : String) (k : Nat) (h : decStrB d = some (v, k)) :
    k ≤ d.length := by
  unfold decStrB at h
  split at h
  · simp_all
  · split at h
    · simp_all; omega
    · simp_all

/-- The recognized base entity properties, enumerated in the fixed priority
order of the wire contract (transform and motion before cosmetic and
behavioral fields). -/
inductive EntityProperty
  | position
  | dimensions
  | rotation
  | velocity
  | gravity
  | damping
  | lifetime
  | script
  | registrationPoint
  | angularVelocity
  | angularDamping
  | visible
  | ignoreForCollisions
  | collisionsWillMove
  | locked
  | userData
deriving DecidableEq

/-- Bit index of each property in the property-flag bitset, following the
priority order. -/
def propIndex : EntityProperty → Nat
  | .position => 0
  | .dimensions => 1
  | .rotation => 2
  | .velocity => 3
  | .gravity => 4
  | .damping => 5
  | .lifetime => 6
  | .script => 7
  | .registrationPoint => 8
  | .angularVelocity => 9
  | .angularDamping => 10
  | .visible => 11
  | .ignoreForCollisions => 12
  | .collisionsWillMove => 13
  | .locked => 14
  | .userData => 15

/-- The fixed priority-ordered property list walked by both the encoder and
the decoder (flag order is the wire contract). -/
def propertyList : List EntityProperty :=
  [.position, .dimensions, .rotation, .velocity, .gravity, .damping, .lifetime,
   .script, .registrationPoint, .angularVelocity, .angularDamping, .visible,
   .ignoreForCollisions, .collisionsWillMove, .locked, .userData]

/-- The bitmask requesting every recognized property. -/
def ALL_PROPS : Nat := 65535

/-- A typed property value as carried on the wire. -/
inductive PropValue
  | vecV (v : Vec3)
  | quatV (q : Quat)
  | floatV (q : ℚ)
  | boolV (b : Bool)
  | strV (s : String)
deriving DecidableEq

/-- The current value of a property on an entity. -/
def getProp (e : EntityItem) : EntityProperty → PropValue
  | .position => .vecV e.position
  | .dimensions => .vecV e.dimensions
  | .rotation => .quatV e.rotation
  | .velocity => .vecV e.velocity
  | .gravity => .vecV e.gravity
  | .damping => .floatV e.damping
  | .lifetime => .floatV e.lifetime
  | .script => .strV e.script
  | .registrationPoint => .vecV e.registrationPoint
  | .angularVelocity => .vecV e.angularVelocity
  | .angularDamping => .floatV e.angularDamping
  | .visible => .boolV e.visible
  | .ignoreForCollisions => .boolV e.ignoreForCollisions
  | .collisionsWillMove => .boolV e.collisionsWillMove
  | .locked => .boolV e.locked
  | .userData => .strV e.userData

/-- Applying a decoded property value to an entity; a value of the wrong kind
for the property is ignored. -/
def applyProp (e : EntityItem) : EntityProperty → PropValue → EntityItem
  | .position, .vecV v => { e with position := v }
  | .dimensions, .vecV v => { e with dimensions := v }
  | .rotation, .quatV q => { e with rotation := q }
  | .velocity, .vecV v => { e with velocity := v }
  | .gravity, .vecV v => { e with gravity := v }
  | .damping, .floatV q => { e with damping := q }
  | .lifetime, .floatV q => { e with lifetime := q }
  | .script, .strV s => { e with script := s }
  | .registrationPoint, .vecV v => { e with registrationPoint := v }
  | .angularVelocity, .vecV v => { e with angularVelocity := v }
  | .angularDamping, .floatV q => { e with angularDamping := q }
  | .visible, .boolV b => { e with visible := b }
  | .ignoreForCollisions, .boolV b => { e with ignoreForCollisions := b }
  | .collisionsWillMove, .boolV b => { e with collisionsWillMove := b }
  | .locked, .boolV b => { e with locked := b }
  | .userData, .strV s => { e with userData := s }
  | _, _ => e

/-- Serialization of one property value to its wire bytes. -/
def encodeValue : PropValue → List Nat
  | .vecV v => encVecB v
  | .quatV q => encQuatB q
  | .floatV q => encFloatB q
  | .boolV b => encBoolB b
  | .strV s => encStrB s

/-- Deserialization of one property value from wire bytes, returning the value
and the number of bytes consumed, or none on a truncated buffer. -/
def decodeValue (p : EntityProperty) (data : List Nat) : Option (PropValue × Nat) :=
  match p with
  | .position | .dimensions | .velocity | .gravity | .registrationPoint | .angularVelocity =>
      (decVecB data).map fun r => (PropValue.vecV r.1, r.2)
  | .rotation =>
      (decQuatB data).map fun r => (PropValue.quatV r.1, r.2)
  | .damping | .lifetime | .angularDamping =>
      (decFloatB data).map fun r => (PropValue.floatV r.1, r.2)
  | .visible | .ignoreForCollisions | .collisionsWillMove | .locked =>
      (decBoolB data).map fun r => (PropValue.boolV r.1, r.2)
  | .script | .userData =>
      (decStrB data).map fun r => (PropValue.strV r.1, r.2)

theorem encVecB_length (v : Vec3) : (encVecB v).length = 12 := by
  simp [encVecB, encFloatB]

theorem encQuatB_length (q : Quat) : (encQuatB q).length = 16 := by
  simp [encQuatB, encFloatB]

theorem encFloatB_length (q : ℚ) : (encFloatB q).length = 4 := by
  simp [encFloatB]

theorem encBoolB_length (b : Bool) : (encBoolB b).length = 1 := by
  simp [encBoolB]

theorem encStrB_length (s : String) : (encStrB s).length = 1 + s.data.length := by
  simp [encStrB]
  omega

theorem decodeValue_enc (p : EntityProperty) (e : EntityItem) (rest : List Nat) :
    decodeValue p (encodeValue (getProp e p) ++ rest) =
      some (getProp e p, (encodeValue (getProp e p)).length) := by
  cases p <;>
    simp [decodeValue, encodeValue, getProp, decVecB_enc, decQuatB_enc, decFloatB_enc,
      decBoolB_enc, decStrB_enc, encVecB_length, encQuatB_length, encFloatB_length,
      encBoolB_length, encStrB_length]

theorem decodeValue_le (p : EntityProperty) (d : List Nat) (v : PropValue) (k : Nat)
    (h : decodeValue p d = some (v, k)) : k ≤ d.length := by
  cases p <;>
    (simp only [decodeValue, Option.map_eq_some'] at h
     obtain ⟨⟨v2, k2⟩, hd, hvk⟩ := h
     cases hvk
     first
       | exact decVecB_le d v2 k2 hd
       | exact decQuatB_le d v2 k2 hd
       | exact decFloatB_le d v2 k2 hd
       | exact decBoolB_le d v2 k2 hd
       | exact decStrB_le d v2 k2 hd)

/-- Append state returned by the encoder, modelling OctreeElement::AppendState:
NONE (nothing fit), INCOMPLETE (the state the source calls PARTIAL: some but
not all requested properties were written), COMPLETED. -/
inductive AppendState
  | NONE
  | INCOMPLETE
  | COMPLETED
deriving DecidableEq

/-- The result of one appendEntityData call: the wire bytes, their count, the
property-flag bitset actually written, the bitset of requested properties that
did not fit, and the append state. -/
structure AppendResult where
  bytes : List Nat
  bytesWritten : Nat
  propertyFlags : Nat
  propertiesDidntFit : Nat
  appendState : AppendState
deriving DecidableEq

/-- The bitset of requested properties within a property list (what the
encoder marks as didn't-fit when it stops). -/
def reqMask (requested : Nat) : List EntityProperty → Nat
  | [] => 0
  | p :: ps =>
      (if requested.testBit (propIndex p) then 1 <<< propIndex p else 0) ||| reqMask requested ps

/-- Modelled from the spec: the encoder walk of appendEntityData (body in
EntityItem.cpp, outside the available sources).  Walks the property list in
priority order carrying the running byte count (flag header included); a
requested property is accepted only when its serialization still fits the
byte budget; at the first requested property that does not fit, that property
and every lower-priority requested one is recorded as didn't-fit and the walk
stops, discarding the partial tail. -/
def encodeProps (e : EntityItem) (requested budget : Nat) :
    Nat → List EntityProperty → List Nat × Nat × Nat
  | _, [] => ([], 0, 0)
  | used, p :: ps =>
      if requested.testBit (propIndex p) then
        let bytes := encodeValue (getProp e p)
        if used + bytes.length ≤ budget then
          let r := encodeProps e requested budget (used + bytes.length) ps
          (bytes ++ r.1, r.2.1 ||| (1 <<< propIndex p), r.2.2)
        else ([], 0, reqMask requested (p :: ps))
      else encodeProps e requested budget used ps

/-- Size in bytes of the property-flag bitset header: one bit per recognized
property, 16 properties, two bytes. -/
def FLAGS_SIZE : Nat := 2

/-- The two header bytes carrying the property-flag bitset, little-endian. -/
def flagBytes (m : Nat) : List Nat := [m % 256, m / 256]

/-- Modelled from the spec: appendEntityData entry point (body in
EntityItem.cpp, outside the available sources).  Serializes the flag header
and the accepted property values within the byte budget and reports NONE /
PARTIAL (here INCOMPLETE) / COMPLETED. -/
def appendEntityData (e : EntityItem) (budget requested : Nat) : AppendResult :=
  let r := encodeProps e requested budget FLAGS_SIZE propertyList
  if r.2.1 = 0 then
    { bytes := [], bytesWritten := 0, propertyFlags := 0,
      propertiesDidntFit := r.2.2,
      appendState := if r.2.2 = 0 then .COMPLETED else .NONE }
  else
    { bytes := flagBytes r.2.1 ++ r.1, bytesWritten := 2 + r.1.length,
      propertyFlags := r.2.1, propertiesDidntFit := r.2.2,
      appendState := if r.2.2 = 0 then .COMPLETED else .INCOMPLETE }

/-- Modelled from the spec: the decoder walk of readEntityDataFromBuffer (body
in EntityItem.cpp, outside the available sources).  Reads each flagged value
in the same fixed priority order used by the encoder; parsed values are
applied to the entity only when the apply flag is set, and discarded
otherwise; a truncated value aborts the walk for this entity, consuming only
what was validly parsed before it. -/
def readProps (app : Bool) : EntityItem → List Nat → Nat → List EntityProperty → Nat × EntityItem
  | e, _, _, [] => (0, e)
  | e, data, flags, p :: ps =>
      if flags.testBit (propIndex p) then
        match decodeValue p data with
        | none => (0, e)
        | some (v, k) =>
            let e2 := if app then applyProp e p v else e
            let r := readProps app e2 (data.drop k) flags ps
            (k + r.1, r.2)
      else readProps app e data flags ps

/-- Modelled from the spec: readEntityDataFromBuffer entry point (body in
EntityItem.cpp, outside the available sources).  Never reads past
bytesLeftToRead; parses the property-flag bitset then the flagged values in
priority order.  With overwriteLocalData set, fields are applied with
last-writer-wins semantics: they are applied only when the carried edit
timestamp is at or after the entity's current last-edited time (ties favor
the incoming edit) and the entity's edit timestamps are advanced; with it
clear, values are parsed to keep the stream position but discarded.  Returns
the bytes consumed together with the updated entity. -/
def readEntityDataFromBuffer (e : EntityItem) (data : List Nat) (bytesLeftToRead : Nat)
    (editTimestamp : Nat) (overwriteLocalData : Bool) : Nat × EntityItem :=
  let buf := data.take bytesLeftToRead
  match buf with
  | b0 :: b1 :: vals =>
      let flags := b0 + 256 * b1
      let app := overwriteLocalData && decide (e.lastEdited ≤ editTimestamp)
      let e0 := if app then setLastEdited e editTimestamp else e
      let r := readProps app e0 vals flags propertyList
      (2 + r.1, r.2)
  | _ => (0, e)

/-- Concatenated wire bytes of the values of the given properties. -/
def encAll (e : EntityItem) : List EntityProperty → List Nat
  | [] => []
  | p :: ps => encodeValue (getProp e p) ++ encAll e ps

/-- Total value-byte size of a full encoding of the entity. -/
def totalSize (e : EntityItem) : Nat := (encAll e propertyList).length

/-- The flag bitset carrying every property of the list. -/
def fullMask : List EntityProperty → Nat
  | [] => 0
  | p :: ps => fullMask ps ||| (1 <<< propIndex p)

/-- The highest-priority property requested by a bitmask. -/
def firstRequested (requested : Nat) : Option EntityProperty :=
  propertyList.find? fun p => requested.testBit (propIndex p)

theorem propIndex_lt (p : EntityProperty) : propIndex p < 16 := by
  cases p <;> decide

theorem allProps_testBit (p : EntityProperty) : ALL_PROPS.testBit (propIndex p) = true := by
  cases p <;> decide

theorem fullMask_propertyList : fullMask propertyList = 65535 := by decide

theorem encodeProps_complete (e : EntityItem) (budget : Nat) :
    ∀ (ps : List EntityProperty) (u : Nat), u + (encAll e ps).length ≤ budget →
      encodeProps e ALL_PROPS budget u ps = (encAll e ps, fullMask ps, 0) := by
  intro ps
  induction ps with
  | nil => intro u h; rfl
  | cons p ps ih =>
      intro u h
      have hlen : (encAll e (p :: ps)).length
          = (encodeValue (getProp e p)).length + (encAll e ps).length := by
        simp [encAll]
      have hfit : u + (encodeValue (getProp e p)).length ≤ budget := by omega
      simp only [encodeProps, allProps_testBit p, if_true]
      rw [if_pos hfit, ih (u + (encodeValue (getProp e p)).length) (by omega)]
      simp [encAll, fullMask]

theorem encodeProps_bound (e : EntityItem) (requested budget : Nat) :
    ∀ (ps : List EntityProperty) (u : Nat),
      u + (encodeProps e requested budget u ps).1.length ≤ budget ∨
      ((encodeProps e requested budget u ps).1 = [] ∧
        (encodeProps e requested budget u ps).2.1 = 0) := by
  intro ps
  induction ps with
  | nil => intro u; right; exact ⟨rfl, rfl⟩
  | cons p ps ih =>
      intro u
      by_cases hreq : requested.testBit (propIndex p)
      · by_cases hfit : u + (encodeValue (getProp e p)).length ≤ budget
        · simp only [encodeProps, hreq, if_true]
          rw [if_pos hfit]
          rcases ih (u + (encodeValue (getProp e p)).length) with hle | ⟨h1, h2⟩
          · left
            simp only [List.length_append]
            omega
          · left
            simp only [h1, List.length_append, List.length_nil]
            omega
        · simp only [encodeProps, hreq, if_true]
          rw [if_neg hfit]
          right
          exact ⟨rfl, rfl⟩
      · simp only [encodeProps, hreq, if_false, Bool.false_eq_true]
        exact ih u

theorem reqMask_testBit (requested : Nat) (p : EntityProperty) :
    ∀ ps : List EntityProperty, p ∈ ps → requested.testBit (propIndex p) = true →
      (reqMask requested ps).testBit (propIndex p) = true := by
  intro ps
  induction ps with
  | nil => intro hmem; cases hmem
  | cons a ps ih =>
      intro hmem h
      simp only [reqMask, Nat.testBit_or]
      rcases List.mem_cons.mp hmem with heq | hmem2
      · subst heq
        simp [h, Nat.testBit_shiftLeft]
      · simp [ih hmem2 h]

theorem reqMask_ne_zero (requested : Nat) (p : EntityProperty) (ps : List EntityProperty)
    (h : requested.testBit (propIndex p) = true) (hmem : p ∈ ps) :
    reqMask requested ps ≠ 0 := by
  intro hzero
  have htb := reqMask_testBit requested p ps hmem h
  rw [hzero] at htb
  simp [Nat.zero_testBit] at htb

theorem encodeProps_none (e : EntityItem) (requested budget : Nat) (p : EntityProperty) :
    ∀ (ps : List EntityProperty) (u : Nat),
      ps.find? (fun q => requested.testBit (propIndex q)) = some p →
      budget < u + (encodeValue (getProp e p)).length →
      encodeProps e requested budget u ps = ([], 0, reqMask requested ps) ∧
        reqMask requested ps ≠ 0 := by
  intro ps
  induction ps with
  | nil => intro u hfind; simp [List.find?] at hfind
  | cons a ps ih =>
      intro u hfind hlt
      by_cases ha : requested.testBit (propIndex a)
      · have hpa : p = a := by
          rw [List.find?_cons_of_pos _ (by simp [ha])] at hfind
          exact (Option.some.inj hfind).symm
        subst hpa
        have hnfit : ¬ (u + (encodeValue (getProp e p)).length ≤ budget) := by omega
        constructor
        · simp only [encodeProps, ha, if_true]
          rw [if_neg hnfit]
        · exact reqMask_ne_zero requested p (p :: ps) ha (List.mem_cons_self p ps)
      · rw [List.find?_cons_of_neg _ (by simp [ha])] at hfind
        have hres := ih u hfind hlt
        have hmask : reqMask requested (a :: ps) = reqMask requested ps := by
          simp [reqMask, ha]
        constructor
        · simp only [encodeProps, ha, if_false, Bool.false_eq_true, hmask]
          exact hres.1
        · rw [hmask]
          exact hres.2

/-- Claim C3: appendEntityData never writes more than the byte budget; and
when the budget is smaller than the minimum encoding (flag header plus value
bytes) of the highest-priority requested property, the append state is NONE
and zero bytes are consumed. -/
theorem c3_budget (e : EntityItem) (budget requested : Nat) :
    (appendEntityData e budget requested).bytesWritten ≤ budget ∧
    (∀ p, firstRequested requested = some p →
      budget < FLAGS_SIZE + (encodeValue (getProp e p)).length →
      (appendEntityData e budget requested).appendState = AppendState.NONE ∧
      (appendEntityData e budget requested).bytesWritten = 0) := by
  constructor
  · have hb := encodeProps_bound e requested budget propertyList FLAGS_SIZE
    unfold appendEntityData
    by_cases hz : (encodeProps e requested budget FLAGS_SIZE propertyList).2.1 = 0
    · rw [if_pos hz]
      exact Nat.zero_le budget
    · rw [if_neg hz]
      rcases hb with hle | ⟨h1, h2⟩
      · exact hle
      · exact absurd h2 hz
  · intro p hfind hlt
    unfold firstRequested at hfind
    have hn := encodeProps_none e requested budget p propertyList FLAGS_SIZE hfind hlt
    unfold appendEntityData
    rw [hn.1]
    simp [hn.2]

/-- Witness for c3_budget: requesting only the position property with byte
budget 1 (below the 14-byte minimum encoding) yields append state NONE with
zero bytes written. -/
theorem c3_budget_witness :
    firstRequested 1 = some EntityProperty.position ∧
    (1 : Nat) < FLAGS_SIZE + (encodeValue (getProp freshEntity EntityProperty.position)).length ∧
    (appendEntityData freshEntity 1 1).appendState = AppendState.NONE ∧
    (appendEntityData freshEntity 1 1).bytesWritten = 0 := by
  have h := (c3_budget freshEntity 1 1).2 EntityProperty.position (by decide) (by decide)
  exact ⟨by decide, by decide, h.1, h.2⟩

theorem readProps_le (app : Bool) (flags : Nat) :
    ∀ (ps : List EntityProperty) (e : EntityItem) (data : List Nat),
      (readProps app e data flags ps).1 ≤ data.length := by
  intro ps
  induction ps with
  | nil => intro e data; simp [readProps]
  | cons p ps ih =>
      intro e data
      by_cases hf : flags.testBit (propIndex p)
      · cases hd : decodeValue p data with
        | none => simp [readProps, hf, hd]
        | some vk =>
            obtain ⟨v, k⟩ := vk
            have hk := decodeValue_le p data v k hd
            have hr := ih (if app then applyProp e p v else e) (data.drop k)
            rw [List.length_drop] at hr
            simp only [readProps, hf, if_true, hd]
            omega
      · simp only [readProps, hf, if_false, Bool.false_eq_true]
        exact ih e data

theorem readProps_no_apply (flags : Nat) :
    ∀ (ps : List EntityProperty) (e : EntityItem) (data : List Nat),
      (readProps false e data flags ps).2 = e := by
  intro ps
  induction ps with
  | nil => intro e data; rfl
  | cons p ps ih =>
      intro e data
      by_cases hf : flags.testBit (propIndex p)
      · cases hd : decodeValue p data with
        | none => simp [readProps, hf, hd]
        | some vk =>
            obtain ⟨v, k⟩ := vk
            simp only [readProps, hf, if_true, hd, Bool.false_eq_true, if_false]
            exact ih e (data.drop k)
      · simp only [readProps, hf, if_false, Bool.false_eq_true]
        exact ih e data

/-- Sequential application of the source entity's property values onto a
target entity, in list order. -/
def applyAllProps (src : EntityItem) : EntityItem → List EntityProperty → EntityItem
  | e, [] => e
  | e, p :: ps => applyAllProps src (applyProp e p (getProp src p)) ps

theorem readProps_enc (src : EntityItem) (flags : Nat) :
    ∀ (ps : List EntityProperty) (e : EntityItem) (rest : List Nat),
      (∀ p ∈ ps, flags.testBit (propIndex p) = true) →
      readProps true e (encAll src ps ++ rest) flags ps =
        ((encAll src ps).length, applyAllProps src e ps) := by
  intro ps
  induction ps with
  | nil => intro e rest hall; simp [readProps, encAll, applyAllProps]
  | cons p ps ih =>
      intro e rest hall
      have hf : flags.testBit (propIndex p) = true := hall p (List.mem_cons_self p ps)
      rw [show encAll src (p :: ps) ++ rest
            = encodeValue (getProp src p) ++ (encAll src ps ++ rest) from by simp [encAll]]
      simp only [readProps, hf, if_true, decodeValue_enc, List.drop_left]
      rw [ih (applyProp e p (getProp src p)) rest (fun q hq => hall q (List.mem_cons_of_mem p hq))]
      simp [encAll, applyAllProps]

theorem read_cons (e0 : EntityItem) (b0 b1 : Nat) (vals : List Nat) (t : Nat) (ow : Bool) :
    readEntityDataFromBuffer e0 (b0 :: b1 :: vals) (b0 :: b1 :: vals).length t ow =
      (2 + (readProps (ow && decide (e0.lastEdited ≤ t))
              (if (ow && decide (e0.lastEdited ≤ t)) = true then setLastEdited e0 t else e0)
              vals (b0 + 256 * b1) propertyList).1,
       (readProps (ow && decide (e0.lastEdited ≤ t))
              (if (ow && decide (e0.lastEdited ≤ t)) = true then setLastEdited e0 t else e0)
              vals (b0 + 256 * b1) propertyList).2) := by
  unfold readEntityDataFromBuffer
  rw [List.take_length]

/-- Claim C4: readEntityDataFromBuffer consumes at most the declared
bytesLeftToRead (and never more than the buffer actually holds), and its
result depends only on the first bytesLeftToRead bytes of the buffer, so the
caller can continue decoding subsequent entities of the packet after the
declared sub-stream regardless of truncation inside it. -/
theorem c4_truncation (e : EntityItem) (data : List Nat) (n t : Nat) (ow : Bool) :
    (readEntityDataFromBuffer e data n t ow).1 ≤ min n data.length ∧
    readEntityDataFromBuffer e data n t ow = readEntityDataFromBuffer e (data.take n) n t ow := by
  constructor
  · have hlen : (data.take n).length = min n data.length := List.length_take n data
    unfold readEntityDataFromBuffer
    cases hbuf : data.take n with
    | nil => simp
    | cons b0 tl =>
        cases tl with
        | nil => simp
        | cons b1 vals =>
            rw [hbuf] at hlen
            simp only [List.length_cons] at hlen
            have hr := readProps_le (ow && decide (e.lastEdited ≤ t)) (b0 + 256 * b1)
                propertyList
                (if (ow && decide (e.lastEdited ≤ t)) = true then setLastEdited e t else e) vals
            simp only []
            omega
  · have htt : (data.take n).take n = data.take n := by
      rw [List.take_take]
      simp
    unfold readEntityDataFromBuffer
    rw [htt]

set_option maxHeartbeats 1000000 in
theorem getProperties_applyAllProps (src e0 : EntityItem) :
    getProperties (applyAllProps src e0 propertyList) = getProperties src := by
  simp [propertyList, applyAllProps, applyProp, getProp, getProperties]

set_option maxHeartbeats 1000000 in
theorem lastEdited_applyAllProps (src e0 : EntityItem) :
    (applyAllProps src e0 propertyList).lastEdited = e0.lastEdited := by
  simp [propertyList, applyAllProps, applyProp, getProp]

/-- The full wire image of an entity: the flag header carrying every property
bit, followed by all value bytes, as produced by appendEntityData with an
unlimited budget. -/
def fullEncoding (src : EntityItem) : List Nat := flagBytes 65535 ++ encAll src propertyList

theorem appendEntityData_complete (e : EntityItem) (B : Nat)
    (h : FLAGS_SIZE + totalSize e ≤ B) :
    appendEntityData e B ALL_PROPS =
      { bytes := fullEncoding e, bytesWritten := 2 + totalSize e,
        propertyFlags := 65535, propertiesDidntFit := 0,
        appendState := AppendState.COMPLETED } := by
  unfold appendEntityData
  rw [encodeProps_complete e B propertyList FLAGS_SIZE h, fullMask_propertyList]
  simp [fullEncoding, totalSize]

theorem read_full_applied (e0 src : EntityItem) (t : Nat) (h : e0.lastEdited ≤ t) :
    readEntityDataFromBuffer e0 (fullEncoding src) (fullEncoding src).length t true =
      (2 + totalSize src, applyAllProps src (setLastEdited e0 t) propertyList) := by
  have hdata : fullEncoding src = 255 :: 255 :: encAll src propertyList := by
    show flagBytes 65535 ++ encAll src propertyList = _
    norm_num [flagBytes]
  rw [hdata, read_cons]
  have happ : (true && decide (e0.lastEdited ≤ t)) = true := by simp [h]
  rw [happ]
  have hall : ∀ p ∈ propertyList, (255 + 256 * 255 : Nat).testBit (propIndex p) = true := by
    intro p _
    have hn : (255 + 256 * 255 : Nat) = 65535 := by norm_num
    rw [hn]
    exact allProps_testBit p
  have henc := readProps_enc src (255 + 256 * 255) propertyList (setLastEdited e0 t) [] hall
  rw [List.append_nil] at henc
  simp only [if_true, henc, totalSize]

theorem read_rejected (e0 : EntityItem) (data : List Nat) (n t : Nat)
    (h : ¬ e0.lastEdited ≤ t) :
    (readEntityDataFromBuffer e0 data n t true).2 = e0 := by
  have happ : (true && decide (e0.lastEdited ≤ t)) = false := by simp [h]
  unfold readEntityDataFromBuffer
  cases hbuf : data.take n with
  | nil => rfl
  | cons b0 tl =>
      cases tl with
      | nil => rfl
      | cons b1 vals =>
          simp only [happ, Bool.false_eq_true, if_false]
          exact readProps_no_apply (b0 + 256 * b1) propertyList e0 vals

/-- Claim C1: an entity's full property set survives the encode/decode round
trip exactly: appendEntityData with a budget at least the full encoding size
and all properties requested, followed by readEntityDataFromBuffer with
overwriteLocalData true into a fresh record, yields a record whose property
set equals the source's (exact equality of the rational-valued model, which
subsumes the floating-point tolerance allowed for vector and quaternion
fields). -/
theorem c1_roundtrip (e : EntityItem) (B t : Nat) (h : FLAGS_SIZE + totalSize e ≤ B) :
    getProperties (readEntityDataFromBuffer freshEntity
        (appendEntityData e B ALL_PROPS).bytes
        (appendEntityData e B ALL_PROPS).bytes.length t true).2 = getProperties e := by
  simp only [appendEntityData_complete e B h]
  have hfr : freshEntity.lastEdited ≤ t := Nat.zero_le t
  rw [read_full_applied freshEntity e t hfr]
  exact getProperties_applyAllProps e (setLastEdited freshEntity t)

/-- Witness for c1_roundtrip: a concrete entity with an unlimited (200-byte)
budget round-trips at carried edit timestamp 5. -/
theorem c1_roundtrip_witness :
    FLAGS_SIZE + totalSize freshEntity ≤ 200 ∧
    getProperties (readEntityDataFromBuffer freshEntity
        (appendEntityData freshEntity 200 ALL_PROPS).bytes
        (appendEntityData freshEntity 200 ALL_PROPS).bytes.length 5 true).2
      = getProperties freshEntity :=
  ⟨by decide, c1_roundtrip freshEntity 200 5 (by decide)⟩

/-- One incoming network edit: the full encoding of the source entity's
property set, carrying edit timestamp t, applied to the target entity through
readEntityDataFromBuffer with overwriteLocalData true. -/
def applyEdit (target src : EntityItem) (t : Nat) : EntityItem :=
  (readEntityDataFromBuffer target
      (appendEntityData src (FLAGS_SIZE + totalSize src) ALL_PROPS).bytes
      (appendEntityData src (FLAGS_SIZE + totalSize src) ALL_PROPS).bytes.length t true).2

theorem applyEdit_applied (target src : EntityItem) (t : Nat) (h : target.lastEdited ≤ t) :
    applyEdit target src t = applyAllProps src (setLastEdited target t) propertyList := by
  unfold applyEdit
  simp only [appendEntityData_complete src (FLAGS_SIZE + totalSize src) (le_refl _)]
  rw [read_full_applied target src t h]

theorem applyEdit_rejected (target src : EntityItem) (t : Nat) (h : ¬ target.lastEdited ≤ t) :
    applyEdit target src t = target := by
  unfold applyEdit
  exact read_rejected target _ _ t h

theorem applyEdit_props (target src : EntityItem) (t : Nat) (h : target.lastEdited ≤ t) :
    getProperties (applyEdit target src t) = getProperties src := by
  rw [applyEdit_applied target src t h]
  exact getProperties_applyAllProps src (setLastEdited target t)

theorem applyEdit_lastEdited (target src : EntityItem) (t : Nat) (h : target.lastEdited ≤ t) :
    (applyEdit target src t).lastEdited = t := by
  rw [applyEdit_applied target src t h, lastEdited_applyAllProps]
  rfl

/-- Claim C2: last-writer-wins.  For edits A (timestamp t1) and B (timestamp
t2 < t1) applied through readEntityDataFromBuffer with overwriteLocalData
true, applying A then B leaves the property set at A's values, applying B
then A also leaves it at A's values; an incoming edit with timestamp at or
after the entity's current last-edited time is applied (ties favor the
incoming edit), and one with an earlier timestamp leaves the entity
unchanged. -/
theorem c2_lww (e0 eA eB : EntityItem) (t1 t2 : Nat) (h1 : t2 < t1)
    (h2 : e0.lastEdited ≤ t1) :
    getProperties (applyEdit (applyEdit e0 eA t1) eB t2) = getProperties eA ∧
    getProperties (applyEdit (applyEdit e0 eB t2) eA t1) = getProperties eA ∧
    (∀ src : EntityItem, getProperties (applyEdit e0 src t1) = getProperties src) ∧
    (∀ src : EntityItem, ¬ e0.lastEdited ≤ t2 → applyEdit e0 src t2 = e0) := by
  refine ⟨?_, ?_, fun src => applyEdit_props e0 src t1 h2,
    fun src hlt => applyEdit_rejected e0 src t2 hlt⟩
  · have hA : (applyEdit e0 eA t1).lastEdited = t1 := applyEdit_lastEdited e0 eA t1 h2
    have hrej : ¬ (applyEdit e0 eA t1).lastEdited ≤ t2 := by omega
    rw [applyEdit_rejected (applyEdit e0 eA t1) eB t2 hrej]
    exact applyEdit_props e0 eA t1 h2
  · by_cases hB : e0.lastEdited ≤ t2
    · have hBle : (applyEdit e0 eB t2).lastEdited = t2 := applyEdit_lastEdited e0 eB t2 hB
      have hAle : (applyEdit e0 eB t2).lastEdited ≤ t1 := by omega
      exact applyEdit_props (applyEdit e0 eB t2) eA t1 hAle
    · rw [applyEdit_rejected e0 eB t2 hB]
      exact applyEdit_props e0 eA t1 h2

/-- Witness for c2_lww: concrete edits with timestamps 10 and 5 on a fresh
entity whose last-edited time is 0. -/
theorem c2_lww_witness :
    (5 : Nat) < 10 ∧ freshEntity.lastEdited ≤ 10 ∧
    getProperties (applyEdit (applyEdit freshEntity
        { freshEntity with damping := 3 } 10) { freshEntity with damping := 7 } 5)
      = getProperties { freshEntity with damping := 3 } :=
  ⟨by decide, by decide,
    (c2_lww freshEntity { freshEntity with damping := 3 } { freshEntity with damping := 7 }
      10 5 (by decide) (by decide)).1⟩
